import Mathlib

/-!
Verification of the incremental sync pipeline of dandi-sql
(`dandisets/management/commands/sync_dandi_incremental.py` and
`dandisets/models.py`), via a shallow embedding of its data model and
operations into Lean.

Timestamps are modelled as integers (`Time`); nullable values as `Option`;
database tables as lists of rows kept in creation order.
-/

namespace DandiSql

/-- Timestamps (datetime values), modelled as integers with their order. -/
abbrev Time := Int

/-! ## Dataset-level change detection (`_dandiset_needs_update`)

The Python code reads `api_dandiset.modified` inside a `try` block; the read
can yield a value, yield `None`, or raise.  `RemoteField` captures the three
possibilities. -/

/-- Result of reading a remote field inside a `try` block: a present value,
an absent (`None`) value, or a raised exception. -/
inductive RemoteField (α : Type) where
  | ok (v : Option α)
  | err
deriving DecidableEq, Repr

/-- Shallow embedding of `_dandiset_needs_update(api_dandiset, last_sync_time)`:
no watermark means update; a missing or unreadable remote timestamp means
skip (`False`); otherwise update exactly when the remote timestamp is
strictly newer than the watermark. -/
def dandisetNeedsUpdate (apiModified : RemoteField Time) (lastSyncTime : Option Time) : Bool :=
  match lastSyncTime with
  | none => true
  | some w =>
    match apiModified with
    | .err => false
    | .ok none => false
    | .ok (some m) => decide (w < m)

/-! ## File-level change detection (`_asset_needs_update_from_yaml`)

The asset check compares the later of the remote `dateModified` and
`blobDateModified` against the corresponding latest date of the *local*
asset record (looked up by `dandi_asset_id`), not against the watermark. -/

/-- A YAML asset record, restricted to the fields the sync logic reads.
Missing string fields are the empty string; unparsable dates are `none`. -/
structure AssetData where
  identifier : String
  idField : String
  dateModified : Option Time
  blobDateModified : Option Time
deriving DecidableEq, Repr

/-- A local `Asset` row, restricted to the fields the sync logic reads.
`dandisetsCount` is `asset.dandisets.count()`, the number of
asset-to-dandiset associations this asset participates in. -/
structure LocalAsset where
  dandi_asset_id : String
  date_modified : Option Time
  blob_date_modified : Option Time
  dandisetsCount : Nat
deriving DecidableEq, Repr

/-- Everything after the first colon of `s` (Python `s.split(':', 1)[1]`),
assuming `s` contains a colon; strings are handled as their character
lists, matching Python's character-based indexing. -/
def afterFirstColon (s : String) : String :=
  ⟨(s.data.dropWhile (fun c => c ≠ ':')).drop 1⟩

/-- Asset-id extraction shared by the sync helpers: prefer the `identifier`
field; otherwise take the part of `id` after the first colon (e.g.,
`dandiasset:uuid`), or `id` itself when it has no colon. -/
def assetDataId (a : AssetData) : String :=
  if a.identifier ≠ "" then a.identifier
  else if a.idField ≠ "" then
    if a.idField.data.contains ':' then afterFirstColon a.idField else a.idField
  else ""

/-- The later of two optional dates (`max` when both present). -/
def latestOf (a b : Option Time) : Option Time :=
  match a, b with
  | some x, some y => some (max x y)
  | some x, none => some x
  | none, some y => some y
  | none, none => none

/-- `Asset.objects.get(dandi_asset_id=aid)`, modelled on a list of rows. -/
def lookupAsset (tbl : List LocalAsset) (aid : String) : Option LocalAsset :=
  tbl.find? (fun a => a.dandi_asset_id == aid)

/-- Shallow embedding of `_asset_needs_update_from_yaml(asset_data, last_sync_time)`
(the REST variant `_asset_needs_update` has identical logic): no watermark
means update; no remote date means update; no matching local asset or no
local date means update; otherwise update exactly when the latest remote
date is strictly newer than the latest local date. -/
def assetNeedsUpdateFromYaml (tbl : List LocalAsset) (a : AssetData)
    (lastSyncTime : Option Time) : Bool :=
  match lastSyncTime with
  | none => true
  | some _ =>
    match latestOf a.dateModified a.blobDateModified with
    | none => true
    | some apiDate =>
      match lookupAsset tbl (assetDataId a) with
      | none => true
      | some la =>
        match latestOf la.date_modified la.blob_date_modified with
        | none => true
        | some localDate => decide (localDate < apiDate)

/-! ## YAML download cache (`download_yaml_from_s3`) -/

/-- Parsed YAML documents, abstracted as strings. -/
abbrev Yaml := String

/-- State of the on-disk cache entry for a given (dandiset id, filename)
key: no file, a file whose read or parse raises, or a readable entry whose
age is `time.time() - mtime`. -/
inductive CacheRead where
  | absent
  | readError
  | entry (age : Nat) (doc : Yaml)
deriving DecidableEq, Repr

/-- Outcome of the network path: the `aws s3 cp` subprocess fails, the
downloaded file fails to parse as YAML, or a document is obtained. -/
inductive FetchResult where
  | downloadError
  | parseError
  | ok (doc : Yaml)
deriving DecidableEq, Repr

/-- Observable outcome of one `download_yaml_from_s3` call. -/
structure S3Result where
  returned : Option Yaml
  networkFetched : Bool
  cacheWritten : Option Yaml
  cacheFileRemoved : Bool
  cacheHitsDelta : Nat
  cacheMissesDelta : Nat
deriving DecidableEq, Repr

/-- Cache TTL in seconds (`self.cache_ttl = 3600`). -/
def cacheTtl : Nat := 3600

/-- The network path of `download_yaml_from_s3`: bump the miss counter, run
the download, and on success write the document through to the cache.
`removed` records whether a stale or corrupted cache file was deleted
before fetching. -/
def fetchAndCache (removed : Bool) (fetch : FetchResult) : S3Result :=
  match fetch with
  | .ok doc =>
    { returned := some doc, networkFetched := true, cacheWritten := some doc,
      cacheFileRemoved := removed, cacheHitsDelta := 0, cacheMissesDelta := 1 }
  | .downloadError =>
    { returned := none, networkFetched := true, cacheWritten := none,
      cacheFileRemoved := removed, cacheHitsDelta := 0, cacheMissesDelta := 1 }
  | .parseError =>
    { returned := none, networkFetched := true, cacheWritten := none,
      cacheFileRemoved := removed, cacheHitsDelta := 0, cacheMissesDelta := 1 }

/-- Shallow embedding of `download_yaml_from_s3`: serve a fresh cache entry
without touching the network; delete an expired or unreadable entry and
fall through to the network path. -/
def downloadYamlFromS3 (cache : CacheRead) (fetch : FetchResult) : S3Result :=
  match cache with
  | .entry age doc =>
    if age < cacheTtl then
      { returned := some doc, networkFetched := false, cacheWritten := none,
        cacheFileRemoved := false, cacheHitsDelta := 1, cacheMissesDelta := 0 }
    else
      fetchAndCache true fetch
  | .readError => fetchAndCache true fetch
  | .absent => fetchAndCache false fetch

/-! ## Command options and sync scope -/

/-- The command-line options of `sync_dandi_incremental` that the embedded
logic reads (`add_arguments` / `handle`). -/
structure SyncOptions where
  dry_run : Bool
  skip_deletions : Bool
  dandiset_id : Option String
  dandisets_only : Bool
  assets_only : Bool
  force_full_sync : Bool
  since : Option Time
  lindi_only : Bool
  max_assets : Nat
deriving DecidableEq, Repr

/-- Shallow embedding of `_determine_sync_scope`. -/
def determineSyncScope (opts : SyncOptions) : String :=
  if opts.assets_only then "assets"
  else if opts.dandisets_only then "dandisets"
  else "full"

/-! ## Watermark lookup (`_get_last_sync_time`) over the `SyncTracker` ledger -/

/-- A `SyncTracker` ledger row, restricted to the fields the watermark
lookup reads.  The ledger is modelled as a list in `created_at` order, so
Django's `.latest()` (with `get_latest_by = created_at`) is the last
matching row. -/
structure SyncTrackerRow where
  sync_type : String
  status : String
  last_sync_timestamp : Time
deriving DecidableEq, Repr

/-- The row filter `_get_last_sync_time` applies for a given scope: for
`assets` and `dandisets` scopes, completed runs of the same or `full`
type; for any other scope (i.e. `full`), every completed run. -/
def lastSyncFilter (scope : String) (r : SyncTrackerRow) : Bool :=
  if scope == "assets" then
    (r.sync_type == "full" || r.sync_type == "assets") && r.status == "completed"
  else if scope == "dandisets" then
    (r.sync_type == "full" || r.sync_type == "dandisets") && r.status == "completed"
  else
    r.status == "completed"

/-- Shallow embedding of `_get_last_sync_time(options)`: `--force-full-sync`
yields no watermark, `--since` yields the given instant, and otherwise the
watermark is the `last_sync_timestamp` of the most recent ledger row
passing `lastSyncFilter` for the current scope. -/
def getLastSyncTime (opts : SyncOptions) (rows : List SyncTrackerRow) : Option Time :=
  if opts.force_full_sync then none
  else
    match opts.since with
    | some t => some t
    | none =>
      ((rows.filter (lastSyncFilter (determineSyncScope opts))).getLast?).map
        (fun r => r.last_sync_timestamp)

/-- Modelled from the spec sentence under test (C1): the watermark lookup
for a run considers only completed rows whose recorded scope is a superset
of (or equal to) the requested scope, so a *full* run would only use rows
of type `full`.  Kept separate from `getLastSyncTime`, which embeds the
source. -/
def lastSyncFilterClaimed (scope : String) (r : SyncTrackerRow) : Bool :=
  if scope == "assets" then
    (r.sync_type == "full" || r.sync_type == "assets") && r.status == "completed"
  else if scope == "dandisets" then
    (r.sync_type == "full" || r.sync_type == "dandisets") && r.status == "completed"
  else
    r.sync_type == "full" && r.status == "completed"

/-- The watermark lookup as the claim describes it (see
`lastSyncFilterClaimed`). -/
def getLastSyncTimeClaimed (opts : SyncOptions) (rows : List SyncTrackerRow) : Option Time :=
  if opts.force_full_sync then none
  else
    match opts.since with
    | some t => some t
    | none =>
      ((rows.filter (lastSyncFilterClaimed (determineSyncScope opts))).getLast?).map
        (fun r => r.last_sync_timestamp)

/-! ## Per-dandiset processing effects

The database writes and network transfers a per-dandiset processing step
can perform, in program order. -/

/-- An observable effect of `_process_dandiset_and_assets_from_yaml` and its
helpers. -/
inductive SyncEffect where
  | fetchDandisetYaml (dandisetId : String)
  | upsertDandisetMeta (dandisetId : String)
  | fetchAssetsYaml (dandisetId : String)
  | updateAsset (assetId : String)
  | deleteAsset (assetId : String)
  | removeAssetRelationship (assetId : String)
deriving DecidableEq, Repr

/-- `'DANDI:000003' -> '000003'`: the prefix strip applied to
`api_dandiset.identifier` at the top of
`_process_dandiset_and_assets_from_yaml` (Python `startswith('DANDI:')`
then `[6:]`, character-based). -/
def stripDandiPrefix (s : String) : String :=
  if s.data.take 6 = "DANDI:".data then ⟨s.data.drop 6⟩ else s

/-- Planned actions of `_check_for_deleted_assets_in_dandiset_from_yaml`:
for each local asset of the dandiset whose id is not in the (non-empty)
YAML ids, delete the asset when it belongs to exactly one dandiset, and
otherwise remove only the asset-dandiset relationship. -/
def deletionPlan (dandisetAssets : List LocalAsset) (assetsData : List AssetData) :
    List SyncEffect :=
  dandisetAssets.filterMap (fun la =>
    if ((assetsData.map assetDataId).filter (fun s => s != "")).contains
        la.dandi_asset_id then none
    else if la.dandisetsCount == 1 then some (.deleteAsset la.dandi_asset_id)
    else some (.removeAssetRelationship la.dandi_asset_id))

/-- Shallow embedding of `_check_for_deleted_assets_in_dandiset_from_yaml`:
in dry-run mode the planned deletions are only reported, not applied. -/
def checkForDeletedAssetsFromYaml (dandisetAssets : List LocalAsset)
    (assetsData : List AssetData) (dryRun : Bool) : List SyncEffect :=
  if dryRun then [] else deletionPlan dandisetAssets assetsData

/-- Result of downloading `assets.yaml`: download or parse failure
(`None`), a parsed document that is not a list, or a list of assets. -/
inductive AssetsYamlResult where
  | failed
  | notList
  | list (assets : List AssetData)
deriving DecidableEq, Repr

/-- Shallow embedding of `_process_assets_for_dandiset_from_yaml` (download
effect excluded; the download outcome is the `res` argument): a failed
download still runs the deletion check against an empty listing, a
non-list document aborts, and otherwise the listing is truncated to
`max_assets`, changed assets are updated, and the deletion check runs
against the truncated listing. -/
def processAssetsForDandisetFromYaml (opts : SyncOptions)
    (res : AssetsYamlResult) (assetTable : List LocalAsset)
    (dandisetAssets : List LocalAsset) (lastSyncTime : Option Time) :
    List SyncEffect :=
  match res with
  | .failed => checkForDeletedAssetsFromYaml dandisetAssets [] opts.dry_run
  | .notList => []
  | .list assets =>
    if assets.isEmpty then
      checkForDeletedAssetsFromYaml dandisetAssets [] opts.dry_run
    else
      let assets := assets.take opts.max_assets
      let updates := assets.filterMap (fun a =>
        if assetNeedsUpdateFromYaml assetTable a lastSyncTime then
          if opts.dry_run then none else some (SyncEffect.updateAsset (assetDataId a))
        else none)
      updates ++ checkForDeletedAssetsFromYaml dandisetAssets assets opts.dry_run

/-- Shallow embedding of `_process_dandiset_and_assets_from_yaml`.
Arguments standing for outcomes of I/O performed inside the function:
`dandisetYamlOk` is whether the `dandiset.yaml` download returns a
document, `localDandisetFound` whether the `base_id__endswith` lookup of a
local dandiset succeeds, and `assetsRes` the `assets.yaml` outcome.
Dandiset `000026` is skipped before any of that happens. -/
def processDandisetAndAssetsFromYaml (opts : SyncOptions)
    (apiIdentifier : String) (syncScope : String)
    (dandisetYamlOk : Bool) (localDandisetFound : Bool)
    (assetsRes : AssetsYamlResult) (assetTable : List LocalAsset)
    (dandisetAssets : List LocalAsset) (lastSyncTime : Option Time) :
    List SyncEffect :=
  let did := stripDandiPrefix apiIdentifier
  if did == "000026" then []
  else
    let metaScope := syncScope == "full" || syncScope == "dandisets"
    let metaEffects : List SyncEffect :=
      if metaScope then
        if opts.dry_run then []
        else
          .fetchDandisetYaml did ::
            (if dandisetYamlOk then [SyncEffect.upsertDandisetMeta did] else [])
      else []
    -- a failed dandiset.yaml download returns before the asset step
    if metaScope && !opts.dry_run && !dandisetYamlOk then metaEffects
    else
      let assetScope := (syncScope == "full" || syncScope == "assets") && !opts.dandisets_only
      if assetScope then
        -- `dandiset` is already set when the meta step actually loaded it;
        -- otherwise the local dandiset must be found by lookup
        let haveLocal := (metaScope && !opts.dry_run && dandisetYamlOk) || localDandisetFound
        if haveLocal then
          metaEffects ++ .fetchAssetsYaml did ::
            processAssetsForDandisetFromYaml opts assetsRes assetTable
              dandisetAssets lastSyncTime
        else metaEffects
      else metaEffects

/-- Condition under which `handle` runs the deleted-dandisets pass
(`_check_for_deleted_dandisets`): not a LINDI-only run, deletions not
skipped, and no specific dandiset requested. -/
def dandisetDeletionPassRuns (opts : SyncOptions) : Bool :=
  !opts.lindi_only && !opts.skip_deletions && opts.dandiset_id.isNone

/-- One step of `_sync_dandisets_and_assets` for a single dandiset: the
dandiset is processed only when `_dandiset_needs_update` selected it. -/
def syncStepForDandiset (opts : SyncOptions) (apiIdentifier : String)
    (apiModified : RemoteField Time) (lastSyncTime : Option Time)
    (syncScope : String) (dandisetYamlOk : Bool) (localDandisetFound : Bool)
    (assetsRes : AssetsYamlResult) (assetTable : List LocalAsset)
    (dandisetAssets : List LocalAsset) : List SyncEffect :=
  if dandisetNeedsUpdate apiModified lastSyncTime then
    processDandisetAndAssetsFromYaml opts apiIdentifier syncScope
      dandisetYamlOk localDandisetFound assetsRes assetTable dandisetAssets
      lastSyncTime
  else []

/-! ## Dandiset upserts and the `is_latest` invariant
(`Dandiset.save` and `_load_dandiset`) -/

/-- A `Dandiset` row, restricted to the fields the `is_latest` maintenance
reads.  `dandi_id` is the unique primary lookup key of the upsert. -/
structure DandisetRow where
  dandi_id : String
  base_id : String
  is_latest : Bool
deriving DecidableEq, Repr

/-- The field assignment `update_or_create` performs on the matched row:
`base_id` is set from the document's `identifier` and `is_latest` to
`True`. -/
def upsertRowUpdate (dandiId baseId : String) (r : DandisetRow) : DandisetRow :=
  if r.dandi_id == dandiId then { r with base_id := baseId, is_latest := true }
  else r

/-- The `Dandiset.save` hook on a row saved with `is_latest = True`:
`Dandiset.objects.filter(base_id=...).exclude(pk=...).update(is_latest=False)`. -/
def clearOtherLatest (dandiId baseId : String) (r : DandisetRow) : DandisetRow :=
  if r.dandi_id != dandiId && r.base_id == baseId then { r with is_latest := false }
  else r

/-- Shallow embedding of one catalog-entry upsert:
`Dandiset.objects.update_or_create(dandi_id=full_id, defaults={... 'base_id': identifier, 'is_latest': True ...})`
followed by the `Dandiset.save` hook, which sets `is_latest = False` on
every other row sharing the saved row's `base_id`. -/
def upsertDandiset (db : List DandisetRow) (dandiId baseId : String) :
    List DandisetRow :=
  (if db.any (fun r => r.dandi_id == dandiId) then
    db.map (upsertRowUpdate dandiId baseId)
  else db ++ [⟨dandiId, baseId, true⟩]).map (clearOtherLatest dandiId baseId)

/-- A sequence of upserts applied to the empty table, each op being a
(full dandi id, base id) pair as extracted from a `dandiset.yaml`
document in `_load_dandiset`. -/
def applyUpserts (ops : List (String × String)) : List DandisetRow :=
  ops.foldl (fun db op => upsertDandiset db op.1 op.2) []

/-- Number of rows with the given base id carrying `is_latest = true`. -/
def latestCount (db : List DandisetRow) (b : String) : Nat :=
  db.countP (fun r => r.base_id == b && r.is_latest)

/-- Some row with the given base id exists. -/
def hasBase (db : List DandisetRow) (b : String) : Prop :=
  ∃ r ∈ db, r.base_id = b

/-- Induction invariant for sequences of catalog-entry upserts drawn from
an op set `S`: primary keys are unique, every row's (dandi id, base id)
pair comes from `S`, and every base id present in the table has exactly
one latest row. -/
def UpsertInv (S : List (String × String)) (db : List DandisetRow) : Prop :=
  (db.map (fun r => r.dandi_id)).Nodup ∧
  (∀ r ∈ db, (r.dandi_id, r.base_id) ∈ S) ∧
  (∀ b, hasBase db b → latestCount db b = 1)

/-! ## Contributor role merging (`_load_dandiset`, contributor loop) -/

/-- Shallow embedding of one contributor-relationship upsert for a fixed
(dandiset, contributor) pair.  `existing` is the stored `role_name` list
when the relationship already exists (`get_or_create` found it), `none`
when it is created with the incoming roles as defaults.  A non-empty
incoming list that differs from the stored list is merged by set union
(`set(existing) | set(new)`, realised here as `List.union`). -/
def applyContributorDoc (existing : Option (List String))
    (incomingRoles : List String) : List String :=
  match existing with
  | none => incomingRoles
  | some cur =>
    if incomingRoles ≠ [] ∧ incomingRoles ≠ cur then cur ∪ incomingRoles
    else cur

/-! ## Run finalization and the sync ledger (`handle`,
`_record_sync_completion`, `_record_sync_failure`) -/

/-- Phase at which a run's body raises: before the `SyncTracker` row is
created (e.g. an invalid `--since` date in `_get_last_sync_time`) or after
it. -/
inductive RunPhase where
  | beforeTracker
  | afterTracker
deriving DecidableEq, Repr

/-- Outcome of the body of `handle`. -/
inductive RunOutcome where
  | success
  | failure (phase : RunPhase) (msg : String)
deriving DecidableEq, Repr

/-- Final state of the run's `SyncTracker` ledger row: the fields `handle`
finalizes.  `error_message` is nullable and is never assigned on the
success path, so it keeps its `None` default. -/
structure FinalTracker where
  status : String
  error_message : Option String
  sync_duration_seconds : Time
deriving DecidableEq, Repr

/-- `error_message[:1000] if error_message else ''` from
`_record_sync_failure`: Python slicing counts characters, modelled on the
string's character list. -/
def truncateErrorMessage (s : String) : String :=
  if s ≠ "" then ⟨s.data.take 1000⟩ else ""

/-- Result of one `handle` invocation: normal return or a re-raised
exception, together with the finalized ledger row when one was created. -/
inductive HandleResult where
  | completed (tracker : Option FinalTracker)
  | raised (msg : String) (tracker : Option FinalTracker)
deriving DecidableEq, Repr

/-- Shallow embedding of the try/except skeleton of `handle`: a tracker is
created only in non-dry runs and only after the watermark lookup; success
finalizes it as `completed` with the elapsed duration; a failure after
creation finalizes it as `failed` with the truncated message and re-raises;
any other failure re-raises with no ledger row. -/
def handleRun (dryRun : Bool) (outcome : RunOutcome) (duration : Time) :
    HandleResult :=
  match outcome with
  | .success =>
    if dryRun then .completed none
    else .completed (some ⟨"completed", none, duration⟩)
  | .failure .beforeTracker m => .raised m none
  | .failure .afterTracker m =>
    if dryRun then .raised m none
    else .raised m (some ⟨"failed", some (truncateErrorMessage m), duration⟩)

/-! ## Theorems -/

theorem upsertRowUpdate_dandi_id (d b : String) (r : DandisetRow) :
    (upsertRowUpdate d b r).dandi_id = r.dandi_id := by
  unfold upsertRowUpdate; split <;> rfl

theorem upsertRowUpdate_of_eq (d b : String) (r : DandisetRow)
    (h : r.dandi_id = d) : upsertRowUpdate d b r = ⟨d, b, true⟩ := by
  unfold upsertRowUpdate
  cases r
  simp_all

theorem upsertRowUpdate_of_ne (d b : String) (r : DandisetRow)
    (h : r.dandi_id ≠ d) : upsertRowUpdate d b r = r := by
  unfold upsertRowUpdate
  simp [h]

theorem clearOtherLatest_dandi_id (d b : String) (r : DandisetRow) :
    (clearOtherLatest d b r).dandi_id = r.dandi_id := by
  unfold clearOtherLatest; split <;> rfl

theorem clearOtherLatest_base_id (d b : String) (r : DandisetRow) :
    (clearOtherLatest d b r).base_id = r.base_id := by
  unfold clearOtherLatest; split <;> rfl

theorem countP_congr_mem {α : Type} {p q : α → Bool} {l : List α}
    (h : ∀ a ∈ l, p a = q a) : l.countP p = l.countP q :=
  List.countP_congr (fun a ha => by rw [h a ha])

/-- On the d-row, `clearOtherLatest` is the identity. -/
theorem clearOtherLatest_self (d b : String) (r : DandisetRow)
    (h : r.dandi_id = d) : clearOtherLatest d b r = r := by
  unfold clearOtherLatest
  have : (r.dandi_id != d) = false := by simp [h]
  simp [this]

/-- Pointwise effect of the clearing pass on the latest-flag count for the
saved base id: only the saved row can stay latest. -/
theorem clearOtherLatest_countP_self (d b : String) (r : DandisetRow) :
    ((clearOtherLatest d b r).base_id == b && (clearOtherLatest d b r).is_latest)
      = (r.dandi_id == d && (r.base_id == b && r.is_latest)) := by
  unfold clearOtherLatest
  by_cases h1 : r.dandi_id = d
  · simp [h1]
  · by_cases h2 : r.base_id = b
    · simp [h1, h2]
    · simp [h1, h2]

/-- Pointwise effect of the clearing pass on other base ids: none. -/
theorem clearOtherLatest_countP_other (d b bq : String) (hne : bq ≠ b)
    (r : DandisetRow) :
    ((clearOtherLatest d b r).base_id == bq && (clearOtherLatest d b r).is_latest)
      = (r.base_id == bq && r.is_latest) := by
  unfold clearOtherLatest
  by_cases h1 : r.dandi_id = d
  · simp [h1]
  · by_cases h2 : r.base_id = b
    · have : (r.base_id == bq) = false := by
        simp [h2]
        exact fun hc => hne hc.symm
      simp [h1, h2, this]
      exact fun hc => absurd hc.symm hne
    · simp [h1, h2]

/-- The failure-message truncation is plain character-list truncation,
also on the empty string. -/
theorem truncateErrorMessage_eq (s : String) :
    truncateErrorMessage s = ⟨s.data.take 1000⟩ := by
  unfold truncateErrorMessage
  by_cases h : s = ""
  · subst h; rfl
  · simp [h]

/-- C3: dataset-level change detection (a total function, hence
side-effect free and non-raising) returns true whenever the watermark is
null; false when the remote modification timestamp is missing or its read
raises; otherwise true iff the remote timestamp is strictly greater
than the watermark. -/
theorem C3_dandiset_change_detection (t x : Time) :
    (∀ m : RemoteField Time, dandisetNeedsUpdate m none = true) ∧
    dandisetNeedsUpdate .err (some t) = false ∧
    dandisetNeedsUpdate (.ok none) (some t) = false ∧
    (dandisetNeedsUpdate (.ok (some x)) (some t) = true ↔ t < x) := by
  refine ⟨fun m => rfl, rfl, rfl, ?_⟩
  simp [dandisetNeedsUpdate]

/-- C5: a cache entry younger than the TTL is served with no network fetch
and a cache-hit increment; an entry at least as old as the TTL is removed
and the document is re-fetched, the result being written through to the
cache on success and nothing being written (and no document returned) on
parse failure. -/
theorem C5_yaml_cache (age : Nat) (doc : Yaml) (fetch : FetchResult) :
    (age < cacheTtl →
      downloadYamlFromS3 (.entry age doc) fetch =
        { returned := some doc, networkFetched := false, cacheWritten := none,
          cacheFileRemoved := false, cacheHitsDelta := 1, cacheMissesDelta := 0 }) ∧
    (cacheTtl ≤ age →
      (downloadYamlFromS3 (.entry age doc) fetch).cacheFileRemoved = true ∧
      (downloadYamlFromS3 (.entry age doc) fetch).networkFetched = true ∧
      (∀ d, fetch = .ok d →
        (downloadYamlFromS3 (.entry age doc) fetch).cacheWritten = some d ∧
        (downloadYamlFromS3 (.entry age doc) fetch).returned = some d) ∧
      (fetch = .parseError →
        (downloadYamlFromS3 (.entry age doc) fetch).cacheWritten = none ∧
        (downloadYamlFromS3 (.entry age doc) fetch).returned = none)) := by
  constructor
  · intro h
    simp [downloadYamlFromS3, h]
  · intro h
    have hna : ¬ age < cacheTtl := not_lt.mpr h
    refine ⟨?_, ?_, ?_, ?_⟩
    · cases fetch <;> simp [downloadYamlFromS3, hna, fetchAndCache]
    · cases fetch <;> simp [downloadYamlFromS3, hna, fetchAndCache]
    · intro d hd; subst hd; simp [downloadYamlFromS3, hna, fetchAndCache]
    · intro hd; subst hd; simp [downloadYamlFromS3, hna, fetchAndCache]

/-- Witness for C5 at concrete inputs: a fresh entry of age 10 is served
from the cache. -/
theorem C5_yaml_cache_witness :
    downloadYamlFromS3 (.entry 10 "doc") (.ok "other") =
      { returned := some "doc", networkFetched := false, cacheWritten := none,
        cacheFileRemoved := false, cacheHitsDelta := 1, cacheMissesDelta := 0 } :=
  (C5_yaml_cache 10 "doc" (.ok "other")).1 (by decide)

/-- C4 counterexample: with watermark 0, a remote `dateModified` of 5
(strictly greater than the watermark), and a local asset record whose
`date_modified` is 10, the code returns `false` — the claim's rule
"otherwise true iff the later remote timestamp is strictly greater than
the watermark" requires `true` here. -/
theorem C4_counterexample :
    assetNeedsUpdateFromYaml [⟨"a", some 10, none, 1⟩] ⟨"a", "", some 5, none⟩
        (some 0) = false ∧
    ((0 : Time) < 5) := by
  constructor
  · rfl
  · decide

/-- C4 amended: file-level change detection returns true whenever the
watermark is null, or both remote timestamps are missing, or no local
asset with the extracted id exists, or the local asset has no recorded
timestamps; otherwise it compares against the *local asset's* latest
timestamp (not the watermark): true iff the later remote timestamp is
strictly greater than the later local timestamp. -/
theorem C4_amended (tbl : List LocalAsset) (a : AssetData) (w : Option Time) :
    assetNeedsUpdateFromYaml tbl a w = true ↔
      (w = none ∨
       latestOf a.dateModified a.blobDateModified = none ∨
       lookupAsset tbl (assetDataId a) = none ∨
       (∃ la, lookupAsset tbl (assetDataId a) = some la ∧
          latestOf la.date_modified la.blob_date_modified = none) ∨
       (∃ la apiDate localDate,
          lookupAsset tbl (assetDataId a) = some la ∧
          latestOf a.dateModified a.blobDateModified = some apiDate ∧
          latestOf la.date_modified la.blob_date_modified = some localDate ∧
          localDate < apiDate)) := by
  unfold assetNeedsUpdateFromYaml
  rcases w with _ | w
  · simp
  · rcases h1 : latestOf a.dateModified a.blobDateModified with _ | apiDate
    · simp [h1]
    · rcases h2 : lookupAsset tbl (assetDataId a) with _ | la
      · simp [h1, h2]
      · rcases h3 : latestOf la.date_modified la.blob_date_modified with _ | localDate
        · simp [h1, h2, h3]
        · simp [h1, h2, h3]

/-- C10: a dandiset whose identifier normalizes to `000026` is skipped
unconditionally by per-entity processing — even when its remote
modification time makes `_dandiset_needs_update` true, the step produces
no effects at all: no metadata upsert, no YAML fetch, no asset update or
deletion. -/
theorem C10_skip_000026 (opts : SyncOptions) (apiId : String)
    (apiModified : RemoteField Time) (lastSyncTime : Option Time)
    (syncScope : String) (dandisetYamlOk localDandisetFound : Bool)
    (assetsRes : AssetsYamlResult) (assetTable dandisetAssets : List LocalAsset)
    (h : stripDandiPrefix apiId = "000026") :
    syncStepForDandiset opts apiId apiModified lastSyncTime syncScope
      dandisetYamlOk localDandisetFound assetsRes assetTable dandisetAssets = [] := by
  unfold syncStepForDandiset processDandisetAndAssetsFromYaml
  simp [h]

/-- Witness for C10: dandiset `DANDI:000026` with a remote modification
time past the watermark still yields no effects. -/
theorem C10_skip_000026_witness :
    syncStepForDandiset
      ⟨false, false, none, false, false, false, none, false, 2000⟩
      "DANDI:000026" (.ok (some 100)) (some 0) "full" true true
      (.list []) [] [] = [] :=
  C10_skip_000026 _ _ _ _ _ _ _ _ _ _ (by decide)

/-- C9 counterexample: a dry run that fails after the point where a
tracker would have been created leaves no ledger row at all, and a
non-dry-run failure whose exception text is empty is recorded with an
empty error message — both contradict the claim that every run leaves a
ledger row and that failed runs carry a non-empty message. -/
theorem C9_counterexample :
    handleRun true (.failure .afterTracker "boom") 5 =
      .raised "boom" none ∧
    handleRun false (.failure .afterTracker "") 7 =
      .raised "" (some ⟨"failed", some "", 7⟩) := by
  exact ⟨rfl, rfl⟩

/-- C9 amended: only a non-dry run that survives past the watermark
lookup creates a ledger row, and that row is always finalized: on success
with status `completed`, the recorded duration and no error message; on a
failure after creation with status `failed`, the recorded duration and an
error message equal to the exception text truncated to at most 1000
characters (empty exactly when the exception text is empty), the
exception being re-raised.  Dry runs and failures before the tracker is
created re-raise with no ledger row. -/
theorem C9_amended (m : String) (d : Time) :
    handleRun false .success d = .completed (some ⟨"completed", none, d⟩) ∧
    handleRun false (.failure .afterTracker m) d =
      .raised m (some ⟨"failed", some (truncateErrorMessage m), d⟩) ∧
    (truncateErrorMessage m).length ≤ 1000 ∧
    ((truncateErrorMessage m) = "" ↔ m = "") ∧
    handleRun true (.failure .afterTracker m) d = .raised m none ∧
    handleRun false (.failure .beforeTracker m) d = .raised m none ∧
    handleRun true .success d = .completed none := by
  refine ⟨rfl, rfl, ?_, ?_, rfl, rfl, rfl⟩
  · rw [truncateErrorMessage_eq]
    show (m.data.take 1000).length ≤ 1000
    exact List.length_take_le 1000 m.data
  · rw [truncateErrorMessage_eq]
    constructor
    · intro he
      have hdata : m.data.take 1000 = [] := congrArg String.data he
      rcases List.take_eq_nil_iff.mp hdata with h1 | h1
      · exact absurd h1 (by decide)
      · cases m; simp_all
    · intro he; subst he; rfl

/-- The `is_latest` invariant survives the save hook: if the intermediate
table `u` (after `update_or_create`, before the hook) has unique keys,
`S`-sourced key pairs, exactly one row keyed `d` — that row being
`⟨d, b, true⟩` — and agrees with `db` on every base id other than `b`,
then the hook output satisfies `UpsertInv`. -/
theorem cleared_inv (S : List (String × String)) (db u : List DandisetRow)
    (d b : String)
    (hcount : ∀ bq, hasBase db bq → latestCount db bq = 1)
    (hu_nd : (u.map (fun r => r.dandi_id)).Nodup)
    (hu_pairs : ∀ r ∈ u, (r.dandi_id, r.base_id) ∈ S)
    (hu_dcount : u.countP (fun r => r.dandi_id == d) = 1)
    (hu_drow : ∀ r ∈ u, r.dandi_id = d → r = ⟨d, b, true⟩)
    (hu_oc : ∀ bq, bq ≠ b → u.countP (fun r => r.base_id == bq && r.is_latest)
        = db.countP (fun r => r.base_id == bq && r.is_latest))
    (hu_ob : ∀ bq, bq ≠ b → (hasBase u bq ↔ hasBase db bq)) :
    UpsertInv S (u.map (clearOtherLatest d b)) := by
  refine ⟨?_, ?_, ?_⟩
  · have hids : (u.map (clearOtherLatest d b)).map (fun r => r.dandi_id)
        = u.map (fun r => r.dandi_id) := by
      rw [List.map_map]
      exact List.map_congr_left (fun r _ => clearOtherLatest_dandi_id d b r)
    rw [hids]; exact hu_nd
  · intro r hr
    rcases List.mem_map.mp hr with ⟨r0, hr0, rfl⟩
    rw [clearOtherLatest_dandi_id, clearOtherLatest_base_id]
    exact hu_pairs r0 hr0
  · intro bq hbq
    by_cases hb : bq = b
    · subst hb
      unfold latestCount
      rw [List.countP_map]
      have h1 : u.countP ((fun r => r.base_id == bq && r.is_latest) ∘ clearOtherLatest d bq)
          = u.countP (fun r => r.dandi_id == d && (r.base_id == bq && r.is_latest)) :=
        countP_congr_mem (fun r _ => clearOtherLatest_countP_self d bq r)
      have h2 : u.countP (fun r => r.dandi_id == d && (r.base_id == bq && r.is_latest))
          = u.countP (fun r => r.dandi_id == d) := by
        apply countP_congr_mem
        intro r hrmem
        by_cases hd : r.dandi_id = d
        · have hrw := hu_drow r hrmem hd
          subst hrw
          simp
        · simp [hd]
      rw [h1, h2, hu_dcount]
    · unfold latestCount
      rw [List.countP_map]
      have heq : u.countP ((fun r => r.base_id == bq && r.is_latest) ∘ clearOtherLatest d b)
          = u.countP (fun r => r.base_id == bq && r.is_latest) :=
        countP_congr_mem (fun r _ => clearOtherLatest_countP_other d b bq hb r)
      rw [heq, hu_oc bq hb]
      apply hcount
      rcases hbq with ⟨r, hr, hrb⟩
      rcases List.mem_map.mp hr with ⟨r0, hr0, rfl⟩
      rw [clearOtherLatest_base_id] at hrb
      exact (hu_ob bq hb).mp ⟨r0, hr0, hrb⟩

/-- One upsert preserves the invariant when its (dandi id, base id) pair
comes from a functional op set `S`. -/
theorem upsertDandiset_inv (S : List (String × String)) (db : List DandisetRow)
    (d b : String) (hinv : UpsertInv S db) (hop : (d, b) ∈ S)
    (hfun : ∀ d0 b0 b1, (d0, b0) ∈ S → (d0, b1) ∈ S → b0 = b1) :
    UpsertInv S (upsertDandiset db d b) := by
  obtain ⟨hnd, hpairs, hcount⟩ := hinv
  have hbase_of_d : ∀ r ∈ db, r.dandi_id = d → r.base_id = b := by
    intro r hr hrd
    exact hfun d r.base_id b (hrd ▸ hpairs r hr) hop
  unfold upsertDandiset
  by_cases hany : db.any (fun r => r.dandi_id == d) = true
  · rw [if_pos hany]
    rcases List.any_eq_true.mp hany with ⟨rd, hrd, hrdd⟩
    have hrdd : rd.dandi_id = d := by simpa using hrdd
    apply cleared_inv S db _ d b hcount
    · rw [List.map_map]
      have : (fun r => (upsertRowUpdate d b r).dandi_id)
          = (fun r : DandisetRow => r.dandi_id) := by
        funext r; exact upsertRowUpdate_dandi_id d b r
      rw [show ((fun r : DandisetRow => r.dandi_id) ∘ upsertRowUpdate d b)
            = (fun r : DandisetRow => r.dandi_id) from this]
      exact hnd
    · intro r hr
      rcases List.mem_map.mp hr with ⟨r0, hr0, rfl⟩
      by_cases hd : r0.dandi_id = d
      · rw [upsertRowUpdate_of_eq d b r0 hd]
        exact hop
      · rw [upsertRowUpdate_of_ne d b r0 hd]
        exact hpairs r0 hr0
    · rw [List.countP_map]
      have hpt : db.countP ((fun r => r.dandi_id == d) ∘ upsertRowUpdate d b)
          = db.countP (fun r => r.dandi_id == d) :=
        countP_congr_mem (fun r _ => by
          show ((upsertRowUpdate d b r).dandi_id == d) = (r.dandi_id == d)
          rw [upsertRowUpdate_dandi_id])
      rw [hpt]
      have hmem : d ∈ db.map (fun r => r.dandi_id) :=
        List.mem_map.mpr ⟨rd, hrd, hrdd⟩
      have : (db.map (fun r => r.dandi_id)).count d = 1 :=
        List.count_eq_one_of_mem hnd hmem
      rw [List.count, List.countP_map] at this
      exact this
    · intro r hr hrid
      rcases List.mem_map.mp hr with ⟨r0, hr0, rfl⟩
      rw [upsertRowUpdate_dandi_id] at hrid
      exact upsertRowUpdate_of_eq d b r0 hrid
    · intro bq hbq
      rw [List.countP_map]
      apply countP_congr_mem
      intro r hrm
      by_cases hd : r.dandi_id = d
      · have hrb : r.base_id = b := hbase_of_d r hrm hd
        show ((upsertRowUpdate d b r).base_id == bq && (upsertRowUpdate d b r).is_latest)
            = (r.base_id == bq && r.is_latest)
        rw [upsertRowUpdate_of_eq d b r hd]
        have hbb : (b == bq) = false := by
          simp
          exact fun hc => hbq hc.symm
        simp [hbb, hrb]
      · show ((upsertRowUpdate d b r).base_id == bq && (upsertRowUpdate d b r).is_latest)
            = (r.base_id == bq && r.is_latest)
        rw [upsertRowUpdate_of_ne d b r hd]
    · intro bq hbq
      constructor
      · intro hu
        rcases hu with ⟨r, hr, hrb⟩
        rcases List.mem_map.mp hr with ⟨r0, hr0, rfl⟩
        by_cases hd : r0.dandi_id = d
        · rw [upsertRowUpdate_of_eq d b r0 hd] at hrb
          exact absurd hrb.symm (fun hc => hbq (by simpa using hc))
        · rw [upsertRowUpdate_of_ne d b r0 hd] at hrb
          exact ⟨r0, hr0, hrb⟩
      · intro hdb
        rcases hdb with ⟨r0, hr0, hrb⟩
        by_cases hd : r0.dandi_id = d
        · exact absurd (hbase_of_d r0 hr0 hd ▸ hrb) (fun hc => hbq hc.symm)
        · refine ⟨upsertRowUpdate d b r0, List.mem_map_of_mem _ hr0, ?_⟩
          rw [upsertRowUpdate_of_ne d b r0 hd]
          exact hrb
  · rw [if_neg hany]
    have hnotin : ∀ r ∈ db, r.dandi_id ≠ d := by
      intro r hr
      have := List.any_eq_true.not.mp hany
      push_neg at this
      intro hc
      exact absurd (List.any_eq_true.mpr ⟨r, hr, by simp [hc]⟩) hany
    apply cleared_inv S db _ d b hcount
    · rw [List.map_append]
      rw [List.nodup_append]
      refine ⟨hnd, List.nodup_singleton _, ?_⟩
      intro x hx hx2
      simp at hx2
      rcases List.mem_map.mp hx with ⟨r, hr, hrx⟩
      exact hnotin r hr (hx2 ▸ hrx)
    · intro r hr
      rcases List.mem_append.mp hr with h | h
      · exact hpairs r h
      · simp at h
        subst h
        exact hop
    · rw [List.countP_append]
      have h0 : db.countP (fun r => r.dandi_id == d) = 0 :=
        List.countP_eq_zero.mpr (fun r hr => by simp [hnotin r hr])
      simp [h0, List.countP_cons]
    · intro r hr hrid
      rcases List.mem_append.mp hr with h | h
      · exact absurd hrid (hnotin r h)
      · simpa using h
    · intro bq hbq
      rw [List.countP_append]
      have : ([(⟨d, b, true⟩ : DandisetRow)].countP
          (fun r => r.base_id == bq && r.is_latest)) = 0 := by
        simp [List.countP_cons]
        intro hc
        exact absurd hc.symm hbq
      simp [this]
    · intro bq hbq
      constructor
      · intro hu
        rcases hu with ⟨r, hr, hrb⟩
        rcases List.mem_append.mp hr with h | h
        · exact ⟨r, h, hrb⟩
        · simp at h
          subst h
          exact absurd hrb (fun hc => hbq (by simpa using hc.symm))
      · intro hdb
        rcases hdb with ⟨r0, hr0, hrb⟩
        exact ⟨r0, List.mem_append_left _ hr0, hrb⟩

/-- The save hook clears the latest flag on every other row of the saved
row's base id. -/
theorem upsertDandiset_clears (db : List DandisetRow) (d b : String) :
    ∀ r ∈ upsertDandiset db d b, r.base_id = b → r.dandi_id ≠ d →
      r.is_latest = false := by
  intro r hr hrb hrd
  unfold upsertDandiset at hr
  rcases List.mem_map.mp hr with ⟨r0, _, rfl⟩
  rw [clearOtherLatest_base_id] at hrb
  rw [clearOtherLatest_dandi_id] at hrd
  have hc : (r0.dandi_id != d && r0.base_id == b) = true := by
    simp [hrb, hrd]
  unfold clearOtherLatest
  rw [if_pos hc]

/-- Any sequence of upserts drawn from a functional op set preserves the
invariant. -/
theorem applyUpserts_inv (S : List (String × String))
    (hfun : ∀ d0 b0 b1, (d0, b0) ∈ S → (d0, b1) ∈ S → b0 = b1) :
    ∀ (ops : List (String × String)) (db : List DandisetRow),
      (∀ op ∈ ops, op ∈ S) → UpsertInv S db →
      UpsertInv S (ops.foldl (fun acc op => upsertDandiset acc op.1 op.2) db) := by
  intro ops
  induction ops with
  | nil => exact fun db _ h => h
  | cons op rest ih =>
    intro db hops hinv
    simp only [List.foldl_cons]
    refine ih _ (fun o ho => hops o (List.mem_cons_of_mem _ ho)) ?_
    have hopS : (op.1, op.2) ∈ S := by
      have h := hops op (List.mem_cons_self _ _)
      simpa using h
    exact upsertDandiset_inv S db op.1 op.2 hinv hopS hfun

/-- C8: upserting a contributor relationship merges role lists by set
union: for the same (entry, contributor) pair, applying a document with
roles `docA` then one with roles `docB` yields the role set
`docA ∪ docB` (second conjunct: more generally, applying a document to any
stored role list yields the union of the two sets); re-applying a document
leaves the role set unchanged, and the resulting set does not depend on
the order of the two documents. -/
theorem C8_contributor_role_merge (docA docB : List String) :
    ((applyContributorDoc (some (applyContributorDoc none docA)) docB).toFinset
        = docA.toFinset ∪ docB.toFinset) ∧
    (∀ cur inc : List String,
        (applyContributorDoc (some cur) inc).toFinset
          = cur.toFinset ∪ inc.toFinset) ∧
    (∀ cur inc : List String,
        (applyContributorDoc (some (applyContributorDoc (some cur) inc)) inc).toFinset
          = (applyContributorDoc (some cur) inc).toFinset) ∧
    ((applyContributorDoc (some (applyContributorDoc none docB)) docA).toFinset
        = (applyContributorDoc (some (applyContributorDoc none docA)) docB).toFinset) := by
  have key : ∀ cur inc : List String,
      (applyContributorDoc (some cur) inc).toFinset
        = cur.toFinset ∪ inc.toFinset := by
    intro cur inc
    unfold applyContributorDoc
    by_cases h1 : inc = []
    · subst h1; simp
    · by_cases h2 : inc = cur
      · subst h2; simp
      · simp [h1, h2, List.toFinset_union]
  refine ⟨key docA docB, key, ?_, ?_⟩
  · intro cur inc
    rw [key, key, Finset.union_assoc, Finset.union_self]
  · show (applyContributorDoc (some docB) docA).toFinset
        = (applyContributorDoc (some docA) docB).toFinset
    rw [key, key, Finset.union_comm]

/-- C2 counterexample: a non-dry run with `--skip-deletions` set and
scoped to the single dandiset `DANDI:000003`, whose remote file listing is
empty while a local file entry `x` with exactly one association exists,
still deletes file entry `x` in the per-entry file-deletion pass — the
claim requires both deletion passes to be skipped on such a run. -/
theorem C2_counterexample :
    SyncEffect.deleteAsset "x" ∈
      processDandisetAndAssetsFromYaml
        ⟨false, true, some "DANDI:000003", false, false, false, none, false, 2000⟩
        "DANDI:000003" "full" true false (.list []) [] [⟨"x", none, none, 1⟩]
        none := by
  decide

/-- C2 amended: only the catalog-entry (dandiset) deletion pass is skipped
when `--skip-deletions` is set or when the run targets a single named
dandiset; the per-entry file-deletion pass is entirely independent of
those two options (its effects are unchanged when they change), being
suppressed only by dry-run mode. -/
theorem C2_amended (opts : SyncOptions) (b : Bool) (d : Option String)
    (apiId syncScope : String) (dandisetYamlOk localDandisetFound : Bool)
    (assetsRes : AssetsYamlResult) (assetTable dandisetAssets : List LocalAsset)
    (lastSyncTime : Option Time) :
    dandisetDeletionPassRuns { opts with skip_deletions := true } = false ∧
    (∀ s, dandisetDeletionPassRuns { opts with dandiset_id := some s } = false) ∧
    processDandisetAndAssetsFromYaml
        { opts with skip_deletions := b, dandiset_id := d }
        apiId syncScope dandisetYamlOk localDandisetFound assetsRes assetTable
        dandisetAssets lastSyncTime
      = processDandisetAndAssetsFromYaml opts apiId syncScope dandisetYamlOk
          localDandisetFound assetsRes assetTable dandisetAssets lastSyncTime := by
  refine ⟨?_, ?_, rfl⟩
  · simp [dandisetDeletionPassRuns]
  · intro s; simp [dandisetDeletionPassRuns]

/-- C1 counterexample: with a ledger holding exactly one completed
*assets-only* run (timestamp 42), a *full*-scope watermark lookup returns
42 — the claim requires a full run to take its watermark only from a run
of equal-or-broader scope, so it predicts no watermark here (the
claim-side lookup `getLastSyncTimeClaimed` indeed returns none). -/
theorem C1_counterexample :
    getLastSyncTime
        ⟨false, false, none, false, false, false, none, false, 2000⟩
        [⟨"assets", "completed", 42⟩] = some 42 ∧
    getLastSyncTimeClaimed
        ⟨false, false, none, false, false, false, none, false, 2000⟩
        [⟨"assets", "completed", 42⟩] = none := by
  constructor
  · rfl
  · rfl

/-- In a filtered list, the first surviving element is the first element
satisfying the filter. -/
theorem filter_head?_eq_find? {α : Type} (p : α → Bool) (m : List α) :
    (m.filter p).head? = m.find? p := by
  induction m with
  | nil => rfl
  | cons a t ih =>
    by_cases h : p a
    · simp [List.filter_cons, h, List.find?_cons_of_pos _ h]
    · simp [List.filter_cons, h, ih, List.find?_cons_of_neg _ h]

/-- The last element surviving a filter is the first match in the
reversed list. -/
theorem filter_getLast?_eq_find? {α : Type} (p : α → Bool) (l : List α) :
    (l.filter p).getLast? = l.reverse.find? p := by
  rw [← List.head?_reverse (l.filter p), ← List.filter_reverse,
    filter_head?_eq_find?]

/-- C1 amended: with neither `--force-full-sync` nor `--since`, the
watermark is the `last_sync_timestamp` of the most recent (i.e. first in
reverse creation order) ledger row passing the scope filter — but the
filter for a *full*-scope run accepts every completed run of any sync
type (including narrower assets-only or dandisets-only runs), while the
assets and dandisets scopes accept completed runs of the same or `full`
type, as the claim states. -/
theorem C1_amended (opts : SyncOptions) (rows : List SyncTrackerRow)
    (r : SyncTrackerRow) :
    getLastSyncTime { opts with force_full_sync := false, since := none } rows =
      (rows.reverse.find? (lastSyncFilter (determineSyncScope opts))).map
        (fun row => row.last_sync_timestamp) ∧
    (lastSyncFilter "assets" r = true ↔
      ((r.sync_type = "full" ∨ r.sync_type = "assets") ∧
        r.status = "completed")) ∧
    (lastSyncFilter "dandisets" r = true ↔
      ((r.sync_type = "full" ∨ r.sync_type = "dandisets") ∧
        r.status = "completed")) ∧
    (lastSyncFilter "full" r = true ↔ r.status = "completed") := by
  refine ⟨?_, ?_, ?_, ?_⟩
  · show ((rows.filter (lastSyncFilter (determineSyncScope opts))).getLast?).map
        (fun row => row.last_sync_timestamp) = _
    rw [filter_getLast?_eq_find?]
  · simp [lastSyncFilter]
  · have h1 : (("dandisets" : String) == "assets") = false := by decide
    simp [lastSyncFilter, h1]
  · have h1 : (("full" : String) == "assets") = false := by decide
    have h2 : (("full" : String) == "dandisets") = false := by decide
    simp [lastSyncFilter, h1, h2]

/-- C6: in the per-entry file-deletion pass (run for real, not dry-run),
a local file entry absent from the remote listing is deleted outright
when it has exactly one dandiset association, and only its association is
removed (the entry itself being retained) when it has more than one. -/
theorem C6_file_deletion (dandisetAssets : List LocalAsset)
    (assetsData : List AssetData)
    (hnodup : (dandisetAssets.map (fun la => la.dandi_asset_id)).Nodup)
    (la : LocalAsset) (hla : la ∈ dandisetAssets)
    (habsent : la.dandi_asset_id ∉
      (assetsData.map assetDataId).filter (fun s => s != "")) :
    (la.dandisetsCount = 1 →
      SyncEffect.deleteAsset la.dandi_asset_id ∈
        checkForDeletedAssetsFromYaml dandisetAssets assetsData false ∧
      SyncEffect.removeAssetRelationship la.dandi_asset_id ∉
        checkForDeletedAssetsFromYaml dandisetAssets assetsData false) ∧
    (1 < la.dandisetsCount →
      SyncEffect.removeAssetRelationship la.dandi_asset_id ∈
        checkForDeletedAssetsFromYaml dandisetAssets assetsData false ∧
      SyncEffect.deleteAsset la.dandi_asset_id ∉
        checkForDeletedAssetsFromYaml dandisetAssets assetsData false) := by
  have hcontains : ((assetsData.map assetDataId).filter (fun s => s != "")).contains
      la.dandi_asset_id = false := by
    simpa using habsent
  have hinj : ∀ x ∈ dandisetAssets, ∀ y ∈ dandisetAssets,
      x.dandi_asset_id = y.dandi_asset_id → x = y :=
    fun x hx y hy hxy => List.inj_on_of_nodup_map hnodup hx hy hxy
  have hnc : ¬ (((assetsData.map assetDataId).filter (fun s => s != "")).contains
      la.dandi_asset_id = true) := by
    rw [hcontains]; exact Bool.false_ne_true
  constructor
  · intro h1
    constructor
    · show SyncEffect.deleteAsset la.dandi_asset_id ∈ deletionPlan dandisetAssets assetsData
      apply List.mem_filterMap.mpr
      refine ⟨la, hla, ?_⟩
      rw [if_neg hnc, if_pos (by simp [h1])]
    · intro hmem
      rcases List.mem_filterMap.mp hmem with ⟨lb, hlb, hfb⟩
      by_cases hc : ((assetsData.map assetDataId).filter (fun s => s != "")).contains
          lb.dandi_asset_id = true
      · rw [if_pos hc] at hfb
        exact Option.noConfusion hfb
      · rw [if_neg hc] at hfb
        by_cases hcnt : lb.dandisetsCount = 1
        · rw [if_pos (by simp [hcnt])] at hfb
          simp at hfb
        · rw [if_neg (by simp [hcnt])] at hfb
          simp at hfb
          have hlba : lb = la := hinj lb hlb la hla hfb
          exact hcnt (hlba ▸ h1)
  · intro h1
    have h1p : la.dandisetsCount ≠ 1 := by omega
    constructor
    · show SyncEffect.removeAssetRelationship la.dandi_asset_id ∈
        deletionPlan dandisetAssets assetsData
      apply List.mem_filterMap.mpr
      refine ⟨la, hla, ?_⟩
      rw [if_neg hnc, if_neg (by simp [h1p])]
    · intro hmem
      rcases List.mem_filterMap.mp hmem with ⟨lb, hlb, hfb⟩
      by_cases hc : ((assetsData.map assetDataId).filter (fun s => s != "")).contains
          lb.dandi_asset_id = true
      · rw [if_pos hc] at hfb
        exact Option.noConfusion hfb
      · rw [if_neg hc] at hfb
        by_cases hcnt : lb.dandisetsCount = 1
        · rw [if_pos (by simp [hcnt])] at hfb
          simp at hfb
          have hlba : lb = la := hinj lb hlb la hla hfb
          exact h1p (hlba ▸ hcnt)
        · rw [if_neg (by simp [hcnt])] at hfb
          simp at hfb

/-- Witness for C6: local file entry `x` with a single association,
remote listing holding only asset `b`: `x` is deleted and no
association-removal is emitted for it. -/
theorem C6_file_deletion_witness :
    SyncEffect.deleteAsset "x" ∈
      checkForDeletedAssetsFromYaml [⟨"x", none, none, 1⟩]
        [⟨"b", "", none, none⟩] false ∧
    SyncEffect.removeAssetRelationship "x" ∉
      checkForDeletedAssetsFromYaml [⟨"x", none, none, 1⟩]
        [⟨"b", "", none, none⟩] false :=
  (C6_file_deletion [⟨"x", none, none, 1⟩] [⟨"b", "", none, none⟩]
    (by decide) ⟨"x", none, none, 1⟩ (by decide) (by decide)).1 rfl

/-- C7: after any sequence of catalog-entry upserts (drawn from documents
whose full id determines the base id consistently), every base id present
in the table has exactly one row with `is_latest = true`; moreover saving
an entry marked latest clears the latest flag on every other entry
sharing its base id. -/
theorem C7_is_latest_unique (ops : List (String × String))
    (hfun : ∀ d0 b0 b1, (d0, b0) ∈ ops → (d0, b1) ∈ ops → b0 = b1)
    (base : String) (hbase : hasBase (applyUpserts ops) base) :
    latestCount (applyUpserts ops) base = 1 ∧
    (∀ (db : List DandisetRow) (d b : String), ∀ r ∈ upsertDandiset db d b,
        r.base_id = b → r.dandi_id ≠ d → r.is_latest = false) := by
  constructor
  · have hinv0 : UpsertInv ops [] := by
      refine ⟨List.nodup_nil, ?_, ?_⟩
      · intro r hr
        exact absurd hr (List.not_mem_nil r)
      · intro bq hb
        rcases hb with ⟨r, hr, _⟩
        exact absurd hr (List.not_mem_nil r)
    have h := applyUpserts_inv ops hfun ops [] (fun o ho => ho) hinv0
    unfold applyUpserts
    exact h.2.2 base hbase
  · exact fun db d b => upsertDandiset_clears db d b

/-- Witness for C7: loading the draft and then a published version of
`DANDI:000003` leaves exactly one latest row for that base id. -/
theorem C7_is_latest_unique_witness :
    latestCount
      (applyUpserts [("DANDI:000003/draft", "DANDI:000003"),
        ("DANDI:000003/0.230629.1955", "DANDI:000003")]) "DANDI:000003" = 1 :=
  (C7_is_latest_unique
    [("DANDI:000003/draft", "DANDI:000003"),
      ("DANDI:000003/0.230629.1955", "DANDI:000003")]
    (by
      intro d0 b0 b1 h1 h2
      simp only [List.mem_cons, List.not_mem_nil, or_false] at h1 h2
      rcases h1 with h1 | h1 <;> rcases h2 with h2 | h2 <;> simp_all)
    "DANDI:000003"
    (by unfold hasBase applyUpserts; decide)).1

end DandiSql
